import Mathlib

/-!
Verification of the Pareto-front identification routine
(`identify_pareto` from the notebook `0093_pareto.ipynb`).

The Python source is:

  def identify_pareto(scores):
      population_size = scores.shape[0]
      population_ids = np.arange(population_size)
      pareto_front = np.ones(population_size, dtype=bool)
      for i in range(population_size):
          for j in range(population_size):
              if all(scores[j] >= scores[i]) and any(scores[j] > scores[i]):
                  pareto_front[i] = 0
                  break
      return population_ids[pareto_front]

The shallow embedding models the population as a list of score rows.
The element type is kept generic over an order with decidable `≤` and `<`,
mirroring NumPy's dtype-generic element-wise comparisons: the rational
instantiation models valid (finite real) inputs and a dedicated
`FloatVal` type models IEEE comparison semantics with non-finite values.
-/

namespace Pareto

section Generic

variable {α : Type} [LE α] [LT α]
variable [DecidableRel (α := α) (· ≤ ·)] [DecidableRel (α := α) (· < ·)]

/-- The dominance test of the source's inner-loop condition:
`all(scores[j] >= scores[i]) and any(scores[j] > scores[i])`,
element-wise over the two rows (`sj` plays `scores[j]`, `si` plays
`scores[i]`). -/
def dominates (sj si : List α) : Bool :=
  (List.zipWith (fun x y => decide (y ≤ x)) sj si).all id &&
  (List.zipWith (fun x y => decide (y < x)) sj si).any id

/-- The source's inner loop over `j` with `break`: scan the rows in order
and stop as soon as one dominator of row `si` is found. -/
def dominatedEarly (rows : List (List α)) (si : List α) : Bool :=
  match rows with
  | [] => false
  | s :: rest => if dominates s si then true else dominatedEarly rest si

/-- The naive full-scan variant of the inner loop: visit every row and
OR-reduce the dominance tests, with no early exit. -/
def dominatedFull (rows : List (List α)) (si : List α) : Bool :=
  rows.foldl (fun acc s => acc || dominates s si) false

/-- `identify_pareto`: index `i` is kept exactly when the inner loop finds
no row dominating row `i`; the returned value is `population_ids[pareto_front]`,
i.e. the kept indices in ascending order. -/
def identify_pareto (scores : List (List α)) : List Nat :=
  (List.range scores.length).filter
    (fun i => ! dominatedEarly scores (scores.getD i []))

/-- The variant of `identify_pareto` built on the naive full scan. -/
def identify_pareto_full (scores : List (List α)) : List Nat :=
  (List.range scores.length).filter
    (fun i => ! dominatedFull scores (scores.getD i []))

end Generic

/-- A valid input per the spec: a non-ragged N-by-M matrix of (finite)
numbers with M ≥ 1; finiteness is inherent in the rational model. -/
def ValidInput (M : ℕ) (scores : List (List ℚ)) : Prop :=
  1 ≤ M ∧ ∀ row ∈ scores, row.length = M

/-- The dominance relation stated as in the spec: `A dominates B` iff
every component of `A` is ≥ the matching component of `B` and some
component of `A` is strictly greater. -/
def SpecDominates (a b : List ℚ) : Prop :=
  (∀ t, t < b.length → b.getD t 0 ≤ a.getD t 0) ∧
  (∃ t, t < b.length ∧ b.getD t 0 < a.getD t 0)

/-- The score vectors selected by the filter, in output order. -/
def selectedScores (scores : List (List ℚ)) : List (List ℚ) :=
  (identify_pareto scores).map (fun i => scores.getD i [])

/-- The 30-candidate demonstration population of the notebook. -/
def scores30 : List (List ℚ) :=
  [[97, 23], [55, 77], [34, 76], [80, 60], [99, 4], [81, 5], [5, 81], [30, 79],
   [15, 80], [70, 65], [90, 40], [40, 30], [30, 40], [20, 60], [60, 50],
   [20, 20], [30, 1], [60, 40], [70, 25], [44, 62], [55, 55], [55, 10],
   [15, 45], [83, 22], [76, 46], [56, 32], [45, 55], [10, 70], [10, 30],
   [79, 50]]

/-- An IEEE-754-like value for modelling the comparison semantics of a
floating-point population: a finite number, `nan`, or a signed infinity.
The source performs only `>=` and `>` comparisons on the entries, so the
comparison behaviour (every comparison involving `nan` is false) captures
the float semantics exactly. -/
inductive FloatVal : Type
  | nan : FloatVal
  | neginf : FloatVal
  | num : ℚ → FloatVal
  | inf : FloatVal
  deriving DecidableEq

/-- IEEE `<=` on `FloatVal`: false whenever either side is `nan`. -/
def fle : FloatVal → FloatVal → Bool
  | .nan, _ => false
  | _, .nan => false
  | .neginf, _ => true
  | _, .inf => true
  | .inf, _ => false
  | _, .neginf => false
  | .num a, .num b => decide (a ≤ b)

/-- IEEE `<` on `FloatVal`: false whenever either side is `nan`. -/
def flt : FloatVal → FloatVal → Bool
  | .nan, _ => false
  | _, .nan => false
  | _, .neginf => false
  | .neginf, _ => true
  | .inf, _ => false
  | _, .inf => true
  | .num a, .num b => decide (a < b)

instance : LE FloatVal := ⟨fun a b => fle a b = true⟩

instance : LT FloatVal := ⟨fun a b => flt a b = true⟩

instance : DecidableRel ((· ≤ ·) : FloatVal → FloatVal → Prop) :=
  fun a b => inferInstanceAs (Decidable (fle a b = true))

instance : DecidableRel ((· < ·) : FloatVal → FloatVal → Prop) :=
  fun a b => inferInstanceAs (Decidable (flt a b = true))

section Generic

variable {α : Type} [LE α] [LT α]
variable [DecidableRel (α := α) (· ≤ ·)] [DecidableRel (α := α) (· < ·)]

theorem dominatedEarly_eq_true_iff (rows : List (List α)) (si : List α) :
    dominatedEarly rows si = true ↔ ∃ s ∈ rows, dominates s si = true := by
  induction rows with
  | nil => simp [dominatedEarly]
  | cons s rest ih =>
    by_cases h : dominates s si = true
    · simp [dominatedEarly, h]
    · simp only [dominatedEarly, if_neg h, ih, List.mem_cons]
      constructor
      · rintro ⟨t, ht, hd⟩; exact ⟨t, Or.inr ht, hd⟩
      · rintro ⟨t, (rfl | ht), hd⟩
        · exact absurd hd h
        · exact ⟨t, ht, hd⟩

theorem dominatedEarly_eq_false_iff (rows : List (List α)) (si : List α) :
    dominatedEarly rows si = false ↔ ∀ s ∈ rows, dominates s si = false := by
  rw [← Bool.not_eq_true, not_iff_comm.symm]
  rw [dominatedEarly_eq_true_iff]
  simp [Bool.not_eq_false]

theorem mem_identify_pareto (scores : List (List α)) (i : ℕ) :
    i ∈ identify_pareto scores ↔
      i < scores.length ∧ ∀ s ∈ scores, dominates s (scores.getD i []) = false := by
  unfold identify_pareto
  rw [List.mem_filter, List.mem_range]
  simp [dominatedEarly_eq_false_iff]

theorem identify_pareto_sorted (scores : List (List α)) :
    List.Sorted (· < ·) (identify_pareto scores) :=
  (List.pairwise_lt_range scores.length).filter _

theorem identify_pareto_sublist_range (scores : List (List α)) :
    List.Sublist (identify_pareto scores) (List.range scores.length) :=
  List.filter_sublist _

theorem dominatedFull_eq_dominatedEarly (rows : List (List α)) (si : List α) :
    dominatedFull rows si = dominatedEarly rows si := by
  have key : ∀ (l : List (List α)) (b : Bool),
      l.foldl (fun acc s => acc || dominates s si) b = (b || dominatedEarly l si) := by
    intro l
    induction l with
    | nil => intro b; simp [dominatedEarly]
    | cons s rest ih =>
      intro b
      simp only [List.foldl_cons, dominatedEarly]
      by_cases h : dominates s si = true
      · simp [h, ih]
      · rw [Bool.not_eq_true] at h
        simp [h, ih]
  rw [dominatedFull, key rows false, Bool.false_or]

end Generic

section GenericOrder

variable {α : Type} [Preorder α]
variable [DecidableRel (α := α) (· ≤ ·)] [DecidableRel (α := α) (· < ·)]

theorem dominates_self_eq_false (a : List α) : dominates a a = false := by
  have h : ∀ b : List α, (List.zipWith (fun x y => decide (y < x)) b b).any id = false := by
    intro b
    induction b with
    | nil => rfl
    | cons x xs ih => simp [List.any_cons, ih, lt_irrefl]
  unfold dominates
  rw [Bool.and_eq_false_iff]
  right
  exact h a

end GenericOrder

theorem all_ge_iff : ∀ (a b : List ℚ), a.length = b.length →
    (((List.zipWith (fun x y => decide (y ≤ x)) a b).all id = true) ↔
      ∀ t, t < b.length → b.getD t 0 ≤ a.getD t 0) := by
  intro a
  induction a with
  | nil =>
    intro b h
    cases b with
    | nil => simp
    | cons y ys => simp at h
  | cons x xs ih =>
    intro b h
    cases b with
    | nil => simp at h
    | cons y ys =>
      simp only [List.length_cons, Nat.succ.injEq] at h
      simp only [List.zipWith_cons_cons, List.all_cons, Bool.and_eq_true, id,
        decide_eq_true_eq]
      rw [ih ys h]
      constructor
      · rintro ⟨h0, hrest⟩ t ht
        cases t with
        | zero => simpa using h0
        | succ t =>
          simp only [List.getD_cons_succ]
          exact hrest t (by simpa using ht)
      · intro hall
        refine ⟨by simpa using hall 0 (by simp), fun t ht => ?_⟩
        have hs := hall (t + 1) (by simpa using Nat.succ_lt_succ ht)
        simpa using hs

theorem any_gt_iff : ∀ (a b : List ℚ), a.length = b.length →
    (((List.zipWith (fun x y => decide (y < x)) a b).any id = true) ↔
      ∃ t, t < b.length ∧ b.getD t 0 < a.getD t 0) := by
  intro a
  induction a with
  | nil =>
    intro b h
    cases b with
    | nil => simp
    | cons y ys => simp at h
  | cons x xs ih =>
    intro b h
    cases b with
    | nil => simp at h
    | cons y ys =>
      simp only [List.length_cons, Nat.succ.injEq] at h
      simp only [List.zipWith_cons_cons, List.any_cons, Bool.or_eq_true, id,
        decide_eq_true_eq]
      rw [ih ys h]
      constructor
      · rintro (h0 | ⟨t, ht, hlt⟩)
        · exact ⟨0, by simp, by simpa using h0⟩
        · exact ⟨t + 1, by simpa using Nat.succ_lt_succ ht, by simpa using hlt⟩
      · rintro ⟨t, ht, hlt⟩
        cases t with
        | zero => exact Or.inl (by simpa using hlt)
        | succ t =>
          exact Or.inr ⟨t, by simpa using ht, by simpa using hlt⟩

/-- On equal-length rows the code's Boolean dominance test coincides with
the spec's dominance relation. -/
theorem dominates_iff_specDominates (a b : List ℚ) (h : a.length = b.length) :
    dominates a b = true ↔ SpecDominates a b := by
  unfold dominates SpecDominates
  rw [Bool.and_eq_true, all_ge_iff a b h, any_gt_iff a b h]

theorem sum_le_of_all_ge : ∀ (a b : List ℚ), a.length = b.length →
    (List.zipWith (fun x y => decide (y ≤ x)) a b).all id = true →
    b.sum ≤ a.sum := by
  intro a
  induction a with
  | nil =>
    intro b h _
    cases b with
    | nil => simp
    | cons y ys => simp at h
  | cons x xs ih =>
    intro b h hall
    cases b with
    | nil => simp at h
    | cons y ys =>
      simp only [List.length_cons, Nat.succ.injEq] at h
      simp only [List.zipWith_cons_cons, List.all_cons, Bool.and_eq_true, id,
        decide_eq_true_eq] at hall
      simp only [List.sum_cons]
      exact add_le_add hall.1 (ih ys h hall.2)

theorem sum_lt_of_dominates : ∀ (a b : List ℚ), a.length = b.length →
    dominates a b = true → b.sum < a.sum := by
  intro a
  induction a with
  | nil =>
    intro b h hd
    cases b with
    | nil => simp [dominates] at hd
    | cons y ys => simp at h
  | cons x xs ih =>
    intro b h hd
    cases b with
    | nil => simp at h
    | cons y ys =>
      simp only [List.length_cons, Nat.succ.injEq] at h
      unfold dominates at hd
      simp only [List.zipWith_cons_cons, List.all_cons, List.any_cons,
        Bool.and_eq_true, Bool.or_eq_true, id, decide_eq_true_eq] at hd
      obtain ⟨⟨hxy, hall⟩, hany⟩ := hd
      simp only [List.sum_cons]
      rcases hany with h0 | hrest
      · exact add_lt_add_of_lt_of_le h0 (sum_le_of_all_ge xs ys h hall)
      · have : ys.sum < xs.sum := by
          apply ih ys h
          unfold dominates
          rw [Bool.and_eq_true]
          exact ⟨hall, hrest⟩
        exact add_lt_add_of_le_of_lt hxy this

theorem mem_rows_iff {γ : Type} (l : List (List γ)) (s : List γ) :
    s ∈ l ↔ ∃ j, j < l.length ∧ l.getD j [] = s := by
  rw [List.mem_iff_getElem]
  constructor
  · rintro ⟨n, h, rfl⟩
    exact ⟨n, h, List.getD_eq_getElem l [] h⟩
  · rintro ⟨j, hj, hs⟩
    exact ⟨j, hj, by rw [← List.getD_eq_getElem l [] hj, hs]⟩

theorem getD_mem_of_lt {γ : Type} (l : List (List γ)) (i : ℕ) (hi : i < l.length) :
    l.getD i [] ∈ l := by
  rw [List.getD_eq_getElem l [] hi]
  exact List.getElem_mem hi

theorem row_length (M : ℕ) (scores : List (List ℚ)) (hv : ValidInput M scores)
    (i : ℕ) (hi : i < scores.length) : (scores.getD i []).length = M :=
  hv.2 _ (getD_mem_of_lt scores i hi)

/-- C1: on every valid (non-ragged, N-by-M) population the function
returns a strictly ascending, duplicate-free subsequence of `0..N-1`
consisting of exactly the non-dominated candidates: every returned index
is dominated by no candidate, and every omitted index has a dominator in
the population. -/
theorem identify_pareto_correct (M : ℕ) (scores : List (List ℚ))
    (hv : ValidInput M scores) :
    List.Sorted (· < ·) (identify_pareto scores) ∧
    List.Sublist (identify_pareto scores) (List.range scores.length) ∧
    (∀ i ∈ identify_pareto scores, ∀ j, j < scores.length →
      ¬ SpecDominates (scores.getD j []) (scores.getD i [])) ∧
    (∀ k, k < scores.length → k ∉ identify_pareto scores →
      ∃ j, j < scores.length ∧
        SpecDominates (scores.getD j []) (scores.getD k [])) := by
  refine ⟨identify_pareto_sorted scores, identify_pareto_sublist_range scores, ?_, ?_⟩
  · intro i hi j hj hspec
    rw [mem_identify_pareto] at hi
    obtain ⟨hiN, hnone⟩ := hi
    have hrow : scores.getD j [] ∈ scores := getD_mem_of_lt scores j hj
    have hlen : (scores.getD j []).length = (scores.getD i []).length := by
      rw [row_length M scores hv j hj, row_length M scores hv i hiN]
    have hd := (dominates_iff_specDominates _ _ hlen).mpr hspec
    rw [hnone _ hrow] at hd
    exact Bool.false_ne_true hd
  · intro k hk hnot
    rw [mem_identify_pareto] at hnot
    push_neg at hnot
    obtain ⟨s, hs, hd0⟩ := hnot hk
    have hd : dominates s (scores.getD k []) = true := by
      cases h2 : dominates s (scores.getD k []) with
      | true => rfl
      | false => exact absurd h2 hd0
    obtain ⟨j, hj, rfl⟩ := (mem_rows_iff scores s).mp hs
    have hlen : (scores.getD j []).length = (scores.getD k []).length := by
      rw [row_length M scores hv j hj, row_length M scores hv k hk]
    exact ⟨j, hj, (dominates_iff_specDominates _ _ hlen).mp hd⟩

/-- Witness for C1 at the concrete valid population `[[1,2],[3,4]]`. -/
theorem identify_pareto_correct_witness :
    List.Sorted (· < ·) (identify_pareto ([[1, 2], [3, 4]] : List (List ℚ))) :=
  (identify_pareto_correct 2 [[1, 2], [3, 4]] ⟨by decide, by decide⟩).1

/-- C3: every non-empty valid population has a non-empty Pareto set. -/
theorem identify_pareto_ne_nil (M : ℕ) (scores : List (List ℚ))
    (hv : ValidInput M scores) (hne : scores ≠ []) :
    identify_pareto scores ≠ [] := by
  obtain ⟨m, hm⟩ : ∃ m, m ∈ scores.argmax List.sum := by
    cases h : scores.argmax List.sum with
    | none => exact absurd (List.argmax_eq_none.mp h) hne
    | some m => exact ⟨m, by simp⟩
  have hmem : m ∈ scores := List.argmax_mem hm
  obtain ⟨k, hk, hkm⟩ := (mem_rows_iff scores m).mp hmem
  have hkres : k ∈ identify_pareto scores := by
    rw [mem_identify_pareto]
    refine ⟨hk, fun s hs => ?_⟩
    cases hd : dominates s (scores.getD k []) with
    | false => rfl
    | true =>
      rw [hkm] at hd
      have hlt := sum_lt_of_dominates s m
        (by rw [hv.2 s hs, hv.2 m hmem]) hd
      exact absurd hlt (List.not_lt_of_mem_argmax hs hm)
  intro hempty
  rw [hempty] at hkres
  exact List.not_mem_nil k hkres

/-- Witness for C3 at the concrete valid population `[[1,2]]`. -/
theorem identify_pareto_ne_nil_witness :
    identify_pareto ([[1, 2]] : List (List ℚ)) ≠ [] :=
  identify_pareto_ne_nil 2 [[1, 2]] ⟨by decide, by decide⟩ (by decide)

/-- C4 counterexample: in `[[5,1],[5,2]]` candidate 0 achieves the maximum
value of objective 0 (a tie at 5), yet it is dominated by candidate 1 and
is not returned, so not every single-objective maximizer survives. -/
theorem max_objective_not_retained :
    ((([[5, 1], [5, 2]] : List (List ℚ)).getD 1 []).getD 0 0 ≤
        (([[5, 1], [5, 2]] : List (List ℚ)).getD 0 []).getD 0 0) ∧
    (0 : ℕ) ∉ identify_pareto ([[5, 1], [5, 2]] : List (List ℚ)) := by
  decide

/-- C4 amended: for every valid non-empty population and every objective
index `i < M`, at least one candidate achieving the maximum value of
objective `i` appears in the returned indices (with ties, a maximizer can
be dominated by another maximizer, but never all of them). -/
theorem max_objective_some_retained (M : ℕ) (scores : List (List ℚ))
    (hv : ValidInput M scores) (hne : scores ≠ []) (i : ℕ) (hi : i < M) :
    ∃ k, k < scores.length ∧ k ∈ identify_pareto scores ∧
      ∀ j, j < scores.length →
        (scores.getD j []).getD i 0 ≤ (scores.getD k []).getD i 0 := by
  set g : List ℚ → ℚ := fun r => r.getD i 0 with hg
  obtain ⟨m1, hm1⟩ : ∃ m1, m1 ∈ scores.argmax g := by
    cases h : scores.argmax g with
    | none => exact absurd (List.argmax_eq_none.mp h) hne
    | some m1 => exact ⟨m1, by simp⟩
  have hm1mem : m1 ∈ scores := List.argmax_mem hm1
  set l2 : List (List ℚ) := scores.filter (fun r => decide (g m1 ≤ g r)) with hl2
  have hm1l2 : m1 ∈ l2 := by
    rw [hl2, List.mem_filter]
    exact ⟨hm1mem, by simp⟩
  obtain ⟨m2, hm2⟩ : ∃ m2, m2 ∈ l2.argmax List.sum := by
    cases h : l2.argmax List.sum with
    | none =>
      rw [List.argmax_eq_none.mp h] at hm1l2
      exact absurd hm1l2 (List.not_mem_nil m1)
    | some m2 => exact ⟨m2, by simp⟩
  have hm2l2 : m2 ∈ l2 := List.argmax_mem hm2
  have hm2mem : m2 ∈ scores := List.mem_of_mem_filter hm2l2
  have hm2ge : g m1 ≤ g m2 := by
    have := (List.mem_filter.mp hm2l2).2
    simpa using this
  obtain ⟨k, hk, hkm⟩ := (mem_rows_iff scores m2).mp hm2mem
  refine ⟨k, hk, ?_, ?_⟩
  · rw [mem_identify_pareto]
    refine ⟨hk, fun s hs => ?_⟩
    rw [hkm]
    cases hd : dominates s m2 with
    | false => rfl
    | true =>
      exfalso
      have hlen : s.length = m2.length := by rw [hv.2 s hs, hv.2 m2 hm2mem]
      have hd' := hd
      unfold dominates at hd'
      rw [Bool.and_eq_true] at hd'
      have hall := hd'.1
      have hcomp := (all_ge_iff s m2 hlen).mp hall i
        (by rw [hv.2 m2 hm2mem]; exact hi)
      have hgs : g m2 ≤ g s := by
        simp only [hg]
        exact hcomp
      have hsl2 : s ∈ l2 := by
        rw [hl2, List.mem_filter]
        exact ⟨hs, decide_eq_true (le_trans hm2ge hgs)⟩
      have hlt := sum_lt_of_dominates s m2 hlen hd
      exact absurd hlt (List.not_lt_of_mem_argmax hsl2 hm2)
  · intro j hj
    have hrow : scores.getD j [] ∈ scores := getD_mem_of_lt scores j hj
    have h1 : g (scores.getD j []) ≤ g m1 :=
      not_lt.mp (List.not_lt_of_mem_argmax hrow hm1)
    rw [hkm]
    exact le_trans h1 hm2ge

/-- Witness for the amended C4 at the concrete population `[[1,2],[3,4]]`
and objective 0. -/
theorem max_objective_some_retained_witness :
    ∃ k, k < 2 ∧ k ∈ identify_pareto ([[1, 2], [3, 4]] : List (List ℚ)) ∧
      ∀ j, j < 2 →
        ((([[1, 2], [3, 4]] : List (List ℚ)).getD j []).getD 0 0 ≤
          (([[1, 2], [3, 4]] : List (List ℚ)).getD k []).getD 0 0) := by
  have h := max_objective_some_retained 2 [[1, 2], [3, 4]]
    ⟨by decide, by decide⟩ (by decide) 0 (by decide)
  simpa using h

/-- C5: identical score vectors never dominate each other; two duplicates
with no dominator are both retained; the input `[[1,1],[1,1]]` yields
`[0,1]`; an all-identical population returns every index. -/
theorem duplicates_retained :
    (∀ a : List ℚ, dominates a a = false) ∧
    (∀ (scores : List (List ℚ)) (i k : ℕ), i < scores.length →
      k < scores.length → scores.getD i [] = scores.getD k [] →
      (∀ s ∈ scores, dominates s (scores.getD i []) = false) →
      i ∈ identify_pareto scores ∧ k ∈ identify_pareto scores) ∧
    identify_pareto ([[1, 1], [1, 1]] : List (List ℚ)) = [0, 1] ∧
    (∀ (scores : List (List ℚ)) (r : List ℚ), (∀ row ∈ scores, row = r) →
      identify_pareto scores = List.range scores.length) := by
  refine ⟨fun a => dominates_self_eq_false a, ?_, by decide, ?_⟩
  · intro scores i k hi hk hik hnone
    constructor
    · exact (mem_identify_pareto scores i).mpr ⟨hi, hnone⟩
    · refine (mem_identify_pareto scores k).mpr ⟨hk, fun s hs => ?_⟩
      rw [← hik]
      exact hnone s hs
  · intro scores r hall
    unfold identify_pareto
    rw [List.filter_eq_self]
    intro a ha
    rw [List.mem_range] at ha
    have hrow : scores.getD a [] = r := hall _ (getD_mem_of_lt scores a ha)
    rw [Bool.not_eq_eq_eq_not, Bool.not_true, dominatedEarly_eq_false_iff]
    intro s hs
    rw [hall s hs, hrow]
    exact dominates_self_eq_false r

/-- Witness for C5: both duplicate candidates of `[[2,2],[2,2]]` are
retained. -/
theorem duplicates_retained_witness :
    0 ∈ identify_pareto ([[2, 2], [2, 2]] : List (List ℚ)) ∧
    1 ∈ identify_pareto ([[2, 2], [2, 2]] : List (List ℚ)) :=
  duplicates_retained.2.1 [[2, 2], [2, 2]] 0 1 (by decide) (by decide)
    (by decide) (by decide)

/-- C6: on the notebook's 30-candidate population the function returns
exactly the indices `[0, 1, 3, 4, 6, 7, 8, 9, 10]`. -/
theorem identify_pareto_scores30 :
    identify_pareto scores30 = [0, 1, 3, 4, 6, 7, 8, 9, 10] := by decide

/-- C8: the early-exit inner loop (break on the first dominator found)
computes the same result as the naive full scan that OR-reduces all
dominance tests. -/
theorem identify_pareto_eq_full {α : Type} [LE α] [LT α]
    [DecidableRel (α := α) (· ≤ ·)] [DecidableRel (α := α) (· < ·)]
    (scores : List (List α)) :
    identify_pareto scores = identify_pareto_full scores := by
  unfold identify_pareto identify_pareto_full
  congr 1
  funext i
  rw [dominatedFull_eq_dominatedEarly]

/-- Witness for C8 at a concrete input. -/
theorem identify_pareto_eq_full_witness :
    identify_pareto ([[1, 2], [2, 1], [2, 2]] : List (List ℚ)) =
      identify_pareto_full ([[1, 2], [2, 1], [2, 2]] : List (List ℚ)) :=
  identify_pareto_eq_full [[1, 2], [2, 1], [2, 2]]

theorem dominatedEarly_congr {l₁ l₂ : List (List ℚ)}
    (h : ∀ s, s ∈ l₁ ↔ s ∈ l₂) (r : List ℚ) :
    dominatedEarly l₁ r = dominatedEarly l₂ r := by
  rw [Bool.eq_iff_iff]
  show dominatedEarly l₁ r = true ↔ dominatedEarly l₂ r = true
  rw [dominatedEarly_eq_true_iff, dominatedEarly_eq_true_iff]
  constructor
  · rintro ⟨s, hs, hd⟩
    exact ⟨s, (h s).mp hs, hd⟩
  · rintro ⟨s, hs, hd⟩
    exact ⟨s, (h s).mpr hs, hd⟩

/-- C7: permuting the population permutes the returned indices
correspondingly, and the set of selected score vectors is invariant. -/
theorem identify_pareto_perm (M : ℕ) (scores : List (List ℚ))
    (_hv : ValidInput M scores) (σ : Equiv.Perm (Fin scores.length))
    (scores' : List (List ℚ))
    (h : scores' = List.ofFn (fun k => scores.get (σ k))) :
    (∀ k : Fin scores.length,
      ((k : ℕ) ∈ identify_pareto scores' ↔
        ((σ k : Fin scores.length) : ℕ) ∈ identify_pareto scores)) ∧
    (∀ r : List ℚ, r ∈ selectedScores scores' ↔ r ∈ selectedScores scores) := by
  subst h
  have hlen' : (List.ofFn (fun k => scores.get (σ k))).length = scores.length := by
    simp
  have hmem : ∀ s : List ℚ,
      s ∈ List.ofFn (fun k => scores.get (σ k)) ↔ s ∈ scores := by
    intro s
    rw [List.mem_ofFn]
    constructor
    · rintro ⟨k, rfl⟩
      exact List.get_mem scores _ _
    · intro hs
      obtain ⟨n, rfl⟩ := List.mem_iff_get.mp hs
      exact ⟨σ.symm n, by simp⟩
  have hrow : ∀ k : Fin scores.length,
      (List.ofFn (fun j => scores.get (σ j))).getD (k : ℕ) [] =
        scores.getD ((σ k : Fin scores.length) : ℕ) [] := by
    intro k
    rw [List.getD_eq_getElem _ [] (by rw [hlen']; exact k.isLt),
        List.getD_eq_getElem _ [] (σ k).isLt]
    rw [List.getElem_ofFn]
    simp [List.get_eq_getElem]
  have hpoint : ∀ k : Fin scores.length,
      ((k : ℕ) ∈ identify_pareto (List.ofFn (fun j => scores.get (σ j))) ↔
        ((σ k : Fin scores.length) : ℕ) ∈ identify_pareto scores) := by
    intro k
    rw [mem_identify_pareto, mem_identify_pareto, hrow k]
    constructor
    · rintro ⟨-, h2⟩
      exact ⟨(σ k).isLt, fun s hs => h2 s ((hmem s).mpr hs)⟩
    · rintro ⟨-, h2⟩
      exact ⟨by rw [hlen']; exact k.isLt, fun s hs => h2 s ((hmem s).mp hs)⟩
  refine ⟨hpoint, ?_⟩
  intro r
  simp only [selectedScores, List.mem_map]
  constructor
  · rintro ⟨idx, hidx, rfl⟩
    have hidxlt : idx < scores.length := by
      have := ((mem_identify_pareto _ idx).mp hidx).1
      rwa [hlen'] at this
    refine ⟨((σ ⟨idx, hidxlt⟩ : Fin scores.length) : ℕ), ?_, ?_⟩
    · exact (hpoint ⟨idx, hidxlt⟩).mp hidx
    · exact (hrow ⟨idx, hidxlt⟩).symm
  · rintro ⟨j, hj, rfl⟩
    have hjlt : j < scores.length := ((mem_identify_pareto _ j).mp hj).1
    refine ⟨((σ.symm ⟨j, hjlt⟩ : Fin scores.length) : ℕ), ?_, ?_⟩
    · apply (hpoint (σ.symm ⟨j, hjlt⟩)).mpr
      simpa using hj
    · rw [hrow (σ.symm ⟨j, hjlt⟩)]
      simp

/-- Witness for C7: swapping the two rows of `[[1,2],[3,4]]`. -/
theorem identify_pareto_perm_witness :
    ((⟨0, by decide⟩ : Fin ([[1, 2], [3, 4]] : List (List ℚ)).length) : ℕ) ∈
        identify_pareto ([[3, 4], [1, 2]] : List (List ℚ)) ↔
      ((Equiv.swap (⟨0, by decide⟩ : Fin ([[1, 2], [3, 4]] : List (List ℚ)).length)
          ⟨1, by decide⟩ ⟨0, by decide⟩ : Fin ([[1, 2], [3, 4]] : List (List ℚ)).length) : ℕ) ∈
        identify_pareto ([[1, 2], [3, 4]] : List (List ℚ)) :=
  (identify_pareto_perm 2 [[1, 2], [3, 4]] ⟨by decide, by decide⟩
    (Equiv.swap ⟨0, by decide⟩ ⟨1, by decide⟩) [[3, 4], [1, 2]] (by decide)).1
    ⟨0, by decide⟩

theorem FloatVal.le_iff (a b : FloatVal) : a ≤ b ↔ fle a b = true := Iff.rfl

theorem fle_nan_left (y : FloatVal) : fle FloatVal.nan y = false := by
  cases y <;> rfl

theorem fle_nan_right (x : FloatVal) : fle x FloatVal.nan = false := by
  cases x <;> rfl

theorem all_id_eq_false_at (l : List Bool) (t : ℕ) (ht : t < l.length)
    (hfalse : l[t] = false) : l.all id = false := by
  cases hall : l.all id with
  | false => rfl
  | true =>
    exfalso
    have hmem : l[t] ∈ l := l.getElem_mem ht
    have := List.all_eq_true.mp hall _ hmem
    rw [hfalse] at this
    simp at this

/-- On rows whose lengths agree, a row containing `nan` at position `t`
fails the element-wise all-`>=` test in either argument position. -/
theorem all_ge_false_of_nan_right (s row : List FloatVal)
    (hlen : s.length = row.length) (t : ℕ) (ht : t < row.length)
    (hnan : row[t] = FloatVal.nan) :
    (List.zipWith (fun x y => decide (y ≤ x)) s row).all id = false := by
  have hzlen : (List.zipWith (fun x y : FloatVal => decide (y ≤ x)) s row).length =
      row.length := by
    rw [List.length_zipWith, hlen, Nat.min_self]
  apply all_id_eq_false_at _ t (by rw [hzlen]; exact ht)
  rw [List.getElem_zipWith, hnan]
  apply decide_eq_false
  rw [FloatVal.le_iff, fle_nan_left]
  exact Bool.false_ne_true

theorem all_ge_false_of_nan_left (s row : List FloatVal)
    (hlen : s.length = row.length) (t : ℕ) (ht : t < s.length)
    (hnan : s[t] = FloatVal.nan) :
    (List.zipWith (fun x y => decide (y ≤ x)) s row).all id = false := by
  have hzlen : (List.zipWith (fun x y : FloatVal => decide (y ≤ x)) s row).length =
      s.length := by
    rw [List.length_zipWith, hlen, Nat.min_self]
  apply all_id_eq_false_at _ t (by rw [hzlen]; exact ht)
  rw [List.getElem_zipWith, hnan]
  apply decide_eq_false
  rw [FloatVal.le_iff, fle_nan_right]
  exact Bool.false_ne_true

/-- C10: the code performs no finiteness validation.  On a well-shaped
population over IEEE-like values, every candidate whose row contains a
`nan` is retained in the (normally returned) result, and a `nan`-containing
row never dominates any row of the population. -/
theorem identify_pareto_nan (M : ℕ) (scores : List (List FloatVal))
    (hshape : ∀ row ∈ scores, row.length = M) :
    (∀ i, i < scores.length → FloatVal.nan ∈ scores.getD i [] →
      i ∈ identify_pareto scores) ∧
    (∀ a b : List FloatVal, a ∈ scores → b ∈ scores →
      FloatVal.nan ∈ a → dominates a b = false) := by
  constructor
  · intro i hi hnan
    rw [mem_identify_pareto]
    refine ⟨hi, fun s hs => ?_⟩
    obtain ⟨t, ht, hrt⟩ := List.mem_iff_getElem.mp hnan
    have hrowmem : scores.getD i [] ∈ scores := getD_mem_of_lt scores i hi
    have hlen : s.length = (scores.getD i []).length := by
      rw [hshape s hs, hshape _ hrowmem]
    unfold dominates
    rw [Bool.and_eq_false_iff]
    left
    exact all_ge_false_of_nan_right s _ hlen t ht hrt
  · intro a b ha hb hnan
    obtain ⟨t, ht, hat⟩ := List.mem_iff_getElem.mp hnan
    have hlen : a.length = b.length := by
      rw [hshape a ha, hshape b hb]
    unfold dominates
    rw [Bool.and_eq_false_iff]
    left
    exact all_ge_false_of_nan_left a b hlen t ht hat

/-- Witness for C10: in `[[nan, 1], [0, 0]]` the `nan`-containing row 0 is
retained. -/
theorem identify_pareto_nan_witness :
    0 ∈ identify_pareto
      ([[FloatVal.nan, FloatVal.num 1], [FloatVal.num 0, FloatVal.num 0]]) :=
  (identify_pareto_nan 2
      [[FloatVal.nan, FloatVal.num 1], [FloatVal.num 0, FloatVal.num 0]]
      (by decide)).1 0 (by decide) (by decide)

/-- C2 counterexample: the well-shaped input `[[nan, 1], [0, 0]]` has a
non-finite component, yet `identify_pareto` returns the ordinary result
`[0, 1]` — no `InvalidInput` failure occurs, eagerly or otherwise, because
the code contains no input validation at all. -/
theorem nan_input_returns_normally :
    identify_pareto
      ([[FloatVal.nan, FloatVal.num 1], [FloatVal.num 0, FloatVal.num 0]]) =
      [0, 1] := by decide

/-- C2 amended: `identify_pareto` performs no input validation and has no
error path: every well-shaped N-by-M population over IEEE-like values —
including M = 0 and rows with non-finite components — is processed to a
normal result, a strictly ascending list of indices below the population
size, and no `InvalidInput` failure is possible. -/
theorem identify_pareto_no_error (M : ℕ) (scores : List (List FloatVal))
    (_hshape : ∀ row ∈ scores, row.length = M) :
    List.Sorted (· < ·) (identify_pareto scores) ∧
    ∀ i ∈ identify_pareto scores, i < scores.length :=
  ⟨identify_pareto_sorted scores,
    fun i hi => ((mem_identify_pareto scores i).mp hi).1⟩

/-- Witness for the amended C2 at a concrete `nan`-containing input. -/
theorem identify_pareto_no_error_witness :
    List.Sorted (· < ·) (identify_pareto
      ([[FloatVal.nan, FloatVal.num 1], [FloatVal.num 0, FloatVal.num 0]])) ∧
    ∀ i ∈ identify_pareto
      ([[FloatVal.nan, FloatVal.num 1], [FloatVal.num 0, FloatVal.num 0]]),
      i < ([[FloatVal.nan, FloatVal.num 1],
            [FloatVal.num 0, FloatVal.num 0]] : List (List FloatVal)).length :=
  identify_pareto_no_error 2 _ (by decide)

/-- C9: the empty population yields the empty index list; the function is
total (the embedding returns a plain list, mirroring the source, which has
no error path), so no error is raised. -/
theorem identify_pareto_nil : identify_pareto ([] : List (List ℚ)) = [] := rfl

end Pareto
